import Mathlib

/-!
Verification of the ILI anomaly-detection forecasting pipeline
(`anomaly_detection.py`): a renewal-equation epidemic forecaster.

The embedding models pandas data frames as lists of structures, one
structure per row, with `Option` marking missing values (NaN).  Calendar
dates are integers counting days since 1970-01-01, as in the underlying
date representation.  Real numbers are embedded as rationals; the
floating-point divisions of the source are exact on the inputs the
theorems quantify over (hypotheses exclude zero denominators, where
float division would yield infinities outside this embedding).
-/

/-- Decidable equality for `Except`, needed to evaluate pipeline results. -/
instance exceptDecEq {ε α : Type} [DecidableEq ε] [DecidableEq α] :
    DecidableEq (Except ε α)
  | .error e, .error f =>
    match decEq e f with
    | isTrue h => isTrue (by rw [h])
    | isFalse h => isFalse (by intro c; cases c; exact h rfl)
  | .error _, .ok _ => isFalse (by intro c; cases c)
  | .ok _, .error _ => isFalse (by intro c; cases c)
  | .ok a, .ok b =>
    match decEq a b with
    | isTrue h => isTrue (by rw [h])
    | isFalse h => isFalse (by intro c; cases c; exact h rfl)

/-- True exactly when the computation succeeded. -/
def isOkB {ε α : Type} : Except ε α → Bool
  | .ok _ => true
  | .error _ => false

/-- Sum of products of two equal-length vectors (numpy `dot` on 1-d arrays). -/
def dotQ : List ℚ → List ℚ → ℚ
  | a :: as, b :: bs => a * b + dotQ as bs
  | _, _ => 0

/-- Arithmetic mean of a list of rationals. -/
def meanQ (l : List ℚ) : ℚ := l.sum / l.length

/-- Collects a list of optional values; `none` if any entry is missing
(a NaN in any aggregation window makes the aggregate NaN). -/
def seqO : List (Option ℚ) → Option (List ℚ)
  | [] => some []
  | none :: _ => none
  | some x :: t => (seqO t).map (x :: ·)

/-- Insert into a sorted list of rationals. -/
def insQ (x : ℚ) : List ℚ → List ℚ
  | [] => [x]
  | y :: ys => if x ≤ y then x :: y :: ys else y :: insQ x ys

/-- Insertion sort for rationals. -/
def sortQ (l : List ℚ) : List ℚ := l.foldr insQ []

/-- Median with linear interpolation between the two middle elements for
even lengths (pandas `median`); `none` on an empty collection. -/
def medianQ (l : List ℚ) : Option ℚ :=
  let s := sortQ l
  let n := s.length
  if n = 0 then none
  else if n % 2 = 1 then some (s.getD (n / 2) 0)
  else some ((s.getD (n / 2 - 1) 0 + s.getD (n / 2) 0) / 2)

/-- Insert a key into a sorted duplicate-free list of naturals. -/
def insKey (x : ℕ) : List ℕ → List ℕ
  | [] => [x]
  | y :: ys =>
    if x = y then y :: ys
    else if x < y then x :: y :: ys
    else y :: insKey x ys

/-- Sorted list of the distinct elements (pandas `groupby` key order). -/
def sortedDedup (l : List ℕ) : List ℕ := l.foldr insKey []

/-- First value associated with a key in an association list. -/
def lookupT {α : Type} (t : List (ℕ × α)) (k : ℕ) : Option α :=
  match t with
  | [] => none
  | (k2, v) :: rest => if k = k2 then some v else lookupT rest k

/-- Gregorian leap-year test. -/
def isLeap (y : ℤ) : Bool := (y % 4 == 0 && y % 100 != 0) || y % 400 == 0

/-- Days in the months preceding month `m` (1-based) of a common year. -/
def monthPrefix : ℤ → ℤ
  | 1 => 0 | 2 => 31 | 3 => 59 | 4 => 90 | 5 => 120 | 6 => 151
  | 7 => 181 | 8 => 212 | 9 => 243 | 10 => 273 | 11 => 304 | _ => 334

/-- Civil date (year, month, day) of the day `z` days after 1970-01-01,
  by the standard era-decomposition algorithm for the Gregorian calendar.
  Integer division here is floor division with positive divisors. -/
def civilFromDays (z0 : ℤ) : ℤ × ℤ × ℤ :=
  let z := z0 + 719468
  let era := z / 146097
  let doe := z - era * 146097
  let yoe := (doe - doe / 1460 + doe / 36524 - doe / 146096) / 365
  let y := yoe + era * 400
  let doy := doe - (365 * yoe + yoe / 4 - yoe / 100)
  let mp := (5 * doy + 2) / 153
  let d := doy - (153 * mp + 2) / 5 + 1
  let m := mp + (if mp < 10 then 3 else -9)
  (if m ≤ 2 then y + 1 else y, m, d)

/-- 1-based day of year of an epoch day (pandas `Series.dt.dayofyear`). -/
def dayofyear (z : ℤ) : ℕ :=
  let c := civilFromDays z
  let y := c.1
  let m := c.2.1
  let d := c.2.2
  (monthPrefix m + (if 3 ≤ m && isLeap y then 1 else 0) + d).toNat

/-- One row of the raw input table: columns region, ds, percent_ill. -/
structure Obs where
  region : String
  ds : ℤ
  percent_ill : ℚ
  deriving DecidableEq, Repr

/-- One row of a per-region frame after epi-variable derivation.  The
pipeline never creates a day-of-year column on these frames, so rows
built by it carry `doy = none`; a `some` value stands for a frame whose
doy column is populated. -/
structure EpiRow where
  ds : ℤ
  percent_ill : ℚ
  ibar : Option ℚ
  R : Option ℚ
  doy : Option ℕ
  deriving DecidableEq, Repr

/-- One row of the forecast working frame built inside `r0_forecast`. -/
structure PredRow where
  ds : ℤ
  doy : ℕ
  avg_r : Option ℚ
  percent_ill : Option ℚ
  deriving DecidableEq, Repr

/-- One output row of `r0_forecast`: columns ds, cutoff, percent_ill. -/
structure ForecastPoint where
  ds : ℤ
  cutoff : ℤ
  percent_ill : Option ℚ
  deriving DecidableEq, Repr

/-- One row of the aggregated orchestrator output. The source tags
`error_scale`, the standard deviation of smoothing residuals; the square
root being irrational, this embedding carries its square (the residual
variance), which no claim inspects numerically. -/
structure OutRow where
  ds : ℤ
  cutoff : ℤ
  percent_ill : Option ℚ
  run : ℕ
  region : String
  error_scale_sq : Option ℚ
  deriving DecidableEq, Repr

/-- Failure conditions surfaced by the pipeline (Python exceptions). -/
inductive Err where
  /-- KeyError from `df.groupby` on a frame lacking the doy column. -/
  | keyErrorDoy : Err
  /-- Crash from `pd.date_range` on the empty-frame `NaT` cutoff. -/
  | emptyFrame : Err
  /-- KeyError from `forc_df.loc[i, ...]` on a missing row label. -/
  | keyErrorLoc : Err
  /-- Shape error from numpy `dot` on a window of fewer than 5 values. -/
  | badWindow : Err
  deriving DecidableEq, Repr

/-- The fixed generation-time kernel `w` (module-level constant). -/
def wKernel : List ℚ :=
  [4753979 / 100000000, 50372795 / 100000000, 35549083 / 100000000,
   8275124 / 100000000, 1049019 / 100000000]

/-- Effective incidence: `np.flip(ili).dot(w)` — the kernel applied
against time order, most recent observation first. -/
def ibar (ili w : List ℚ) : ℚ := dotQ ili.reverse w

/-- Effective incidence over a window that may contain missing values:
a NaN anywhere in the window makes the numpy dot product NaN. -/
def ibarO (ili : List (Option ℚ)) (w : List ℚ) : Option ℚ :=
  (seqO ili).map (fun l => ibar l w)

/-- Column `percent_ill.rolling(5).apply(ibar)`: trailing 5-day windows,
defined from index 4 on (`min_periods` equal to the window size). -/
def rollApply5 (xs : List ℚ) (i : ℕ) : Option ℚ :=
  if 4 ≤ i ∧ i < xs.length then some (ibar ((xs.drop (i - 4)).take 5) wKernel)
  else none

/-- The ibar column after the assignment `ibar.iloc[:5] = mean(percent_ill.iloc[:5])`
overwrites the first five entries with the mean of the first five
(at most five, on shorter frames) raw observations. -/
def ibarAt (xs : List ℚ) (i : ℕ) : Option ℚ :=
  if i < 5 ∧ i < xs.length then some (meanQ (xs.take 5))
  else rollApply5 xs i

/-- Column `percent_ill.shift(-1)`: next-day incidence, NaN at the last
index of the frame (and absent outside it). -/
def shiftN1 (xs : List ℚ) (i : ℕ) : Option ℚ :=
  if i + 1 < xs.length then some (xs.getD (i + 1) 0) else none

/-- Centered 30-day rolling mean on a length-`n` column: the window at
index `i` spans indices `i - 15` through `i + 14` (pandas places the
label right of center for even windows), and the aggregate is NaN when
the window leaves the frame or contains a NaN. -/
def rollMeanC30 (f : ℕ → Option ℚ) (n i : ℕ) : Option ℚ :=
  if 15 ≤ i ∧ i + 15 ≤ n then
    (seqO ((List.range 30).map (fun k => f (i - 15 + k)))).map meanQ
  else none

/-- Elementwise division of nullable columns.  A zero denominator is
mapped to `none`; the floating-point source produces an infinity there,
which is outside this embedding, and the theorems about R restrict to
positive series where the denominator is provably nonzero. -/
def divO (a b : Option ℚ) : Option ℚ :=
  a.bind (fun x => b.bind (fun y => if y = 0 then none else some (x / y)))

/-- The raw R column of `get_epivars`, before gap filling: the centered
30-day mean of next-day incidence over the centered 30-day mean of ibar. -/
def Rraw (xs : List ℚ) (i : ℕ) : Option ℚ :=
  divO (rollMeanC30 (shiftN1 xs) xs.length i)
       (rollMeanC30 (ibarAt xs) xs.length i)

/-- Mean of the defined entries of the raw R column (`df.R.mean()`,
which skips NaN); `none` when every entry is NaN. -/
def meanDefR (xs : List ℚ) : Option ℚ :=
  let vs := (List.range xs.length).filterMap (Rraw xs)
  if vs.isEmpty then none else some (meanQ vs)

/-- The R column after `fillna(df.R.mean())`. -/
def RAt (xs : List ℚ) (i : ℕ) : Option ℚ :=
  if i < xs.length then
    match Rraw xs i with
    | some v => some v
    | none => meanDefR xs
  else none

/-- Embedding of `get_epivars`: augments a region series (given as
(ds, percent_ill) pairs in frame order) with the ibar and R columns.
No stage of the pipeline creates a doy column, hence `doy = none`. -/
def get_epivars (rows : List (ℤ × ℚ)) : List EpiRow :=
  let xs := rows.map (·.2)
  (List.range rows.length).map (fun (i : ℕ) =>
    { ds := (rows.getD i (0, 0)).1, percent_ill := (rows.getD i (0, 0)).2,
      ibar := ibarAt xs i, R := RAt xs i, doy := none })

/-- Embedding of `df.groupby('doy')['R'].median()`: one entry per doy key
present in the frame, keys in sorted order, value the median of the
non-NaN R values of the group (NaN for an all-NaN group). -/
def groupMedians (df : List EpiRow) : List (ℕ × Option ℚ) :=
  (sortedDedup (df.filterMap (·.doy))).map
    (fun k => (k, medianQ (df.filterMap
      (fun r => if r.doy = some k then r.R else none))))

/-- Social-distancing adjustment: with a modifier present, scale the
aggregate R of every day of year at or after 76. -/
def socialAdjust (social_mod : Option ℚ) (t : List (ℕ × Option ℚ)) :
    List (ℕ × Option ℚ) :=
  match social_mod with
  | none => t
  | some m => t.map (fun p => if 76 ≤ p.1 then (p.1, p.2.map (· * m)) else p)

/-- The avgR table of `r0_forecast`: day-of-year medians of the R column,
optionally scaled by the social-distancing modifier. -/
def avgRTable (df : List EpiRow) (social_mod : Option ℚ) :
    List (ℕ × Option ℚ) :=
  socialAdjust social_mod (groupMedians df)

/-- Largest value of the ds column (`df.ds.max()`), 0 on an empty frame
(where the source produces NaT and crashes shortly after). -/
def maxDs (df : List EpiRow) : ℤ :=
  match df with
  | [] => 0
  | r :: rest => rest.foldl (fun m s => max m s.ds) r.ds

/-- The prediction frame skeleton: dates `cutoff - 4 .. cutoff + n - 5`
from `pd.date_range`, with the day-of-year column derived from ds. -/
def mkPred (cutoff : ℤ) (n : ℕ) : List PredRow :=
  (List.range n).map (fun (j : ℕ) =>
    { ds := cutoff - 4 + (j : ℤ), doy := dayofyear (cutoff - 4 + (j : ℤ)),
      avg_r := none, percent_ill := none })

/-- Inner merge of the prediction frame with the avgR table on doy:
rows whose day of year has no entry are silently dropped, the rest gain
the avg_r value; left row order is preserved and the index is reset. -/
def mergeAvg (pred : List PredRow) (t : List (ℕ × Option ℚ)) :
    List PredRow :=
  pred.filterMap (fun p => (lookupT t p.doy).map (fun v => { p with avg_r := v }))

/-- Left merge with the history frame on ds: a matching history row
supplies percent_ill, several matches duplicate the row, no match leaves
NaN. -/
def mergeHist (pred : List PredRow) (df : List EpiRow) : List PredRow :=
  pred.flatMap (fun p =>
    match df.filter (fun r => r.ds = p.ds) with
    | [] => [p]
    | ms => ms.map (fun m => { p with percent_ill := some m.percent_ill }))

/-- The forward-propagation loop of `r0_forecast`: for each label `i`
(ascending from 5), apply the estimator to the five preceding positions
and write `ibar * avg_r` at label `i`.  A window away from 5 values is
a numpy shape error and a missing label `i` a KeyError, as in the
source; both abort the computation. -/
def forecastLoop (rows : List PredRow) (i steps : ℕ) :
    Except Err (List PredRow) :=
  match steps with
  | 0 => .ok rows
  | steps' + 1 =>
    let win := (rows.drop (i - 5)).take 5
    if win.length = 5 then
      match rows[i]? with
      | none => .error .keyErrorLoc
      | some row =>
        let v := (ibarO (win.map (·.percent_ill)) wKernel).bind
          (fun x => row.avg_r.map (fun r => x * r))
        forecastLoop (rows.set i { row with percent_ill := v }) (i + 1) steps'
    else .error .badWindow

/-- Embedding of `r0_forecast`: the forward-propagated forecast for one
(already truncated, possibly jittered) region frame. -/
def r0_forecast (df : List EpiRow) (horizon : ℕ) (social_mod : Option ℚ) :
    Except Err (List ForecastPoint) :=
  if df.all (fun r => r.doy.isSome) then
    match df with
    | [] => .error .emptyFrame
    | _ :: _ =>
      let cutoff := maxDs df
      let avgR := avgRTable df social_mod
      let merged := mergeHist (mergeAvg (mkPred cutoff (7 * horizon + 5)) avgR) df
      (forecastLoop merged 5 (7 * horizon)).map (fun rows =>
        (rows.filter (fun r => cutoff < r.ds)).map (fun r =>
          { ds := r.ds, cutoff := cutoff, percent_ill := r.percent_ill }))
  else .error .keyErrorDoy

/-- Residuals `percent_ill - percent_ill.rolling(30).mean(center=True)`
over a truncated frame, keeping only the defined (non-NaN) entries, as
the skipna standard deviation does. -/
def residuals (xs : List ℚ) : List ℚ :=
  (List.range xs.length).filterMap (fun i =>
    (rollMeanC30 (fun j => if j < xs.length then some (xs.getD j 0) else none)
      xs.length i).map (fun m => xs.getD i 0 - m))

/-- Squared error scale: the population variance (`np.std(...)^2`, ddof 0)
of the defined residuals; NaN when no residual is defined. -/
def errVarSq (xs : List ℚ) : Option ℚ :=
  let rs := residuals xs
  if rs.isEmpty then none
  else some (meanQ (rs.map (fun r => (r - meanQ rs) ^ 2)))

/-- The no-peek leakage guard `forc_df.R.iloc[-15:] = np.nan`: the last
fifteen rows of the truncated frame lose their R value. -/
def maskR15 (df : List EpiRow) : List EpiRow :=
  (List.range df.length).map (fun (i : ℕ) =>
    let r := df.getD i { ds := 0, percent_ill := 0, ibar := none, R := none,
                         doy := none }
    if df.length ≤ i + 15 then { r with R := none } else r)

/-- The frame handed to the forecaster for simulation `s`: the truncated
frame itself for the baseline `s = 0`, and for `s ≥ 1` the frame with one
scalar noise draw (modelled by the oracle `noise`, standing for
`np.random.normal(loc=0, scale=error_scale)`) added to every
percent_ill value. -/
def simSeries (df : List EpiRow) (noise : ℕ → ℚ) (s : ℕ) : List EpiRow :=
  if s = 0 then df
  else df.map (fun r => { r with percent_ill := r.percent_ill + noise s })

/-- Distinct regions in order of first appearance (pandas `unique`). -/
def uniqueRegions (df : List Obs) : List String :=
  df.foldl (fun acc o => if o.region ∈ acc then acc else acc ++ [o.region]) []

/-- The per-region frame of the orchestrator.  The source line
`region_df.sort_values('ds').reset_index(drop=True, inplace=True)` sorts
a temporary copy and resets the index of that copy, leaving `region_df`
itself in input order, so no reordering happens here. -/
def regionSeries (df : List Obs) (region : String) : List (ℤ × ℚ) :=
  (df.filter (fun o => o.region = region)).map (fun o => (o.ds, o.percent_ill))

/-- Embedding of `anomaly_wrapper`: for each region, derive epi
variables; for each run date, truncate, compute the error scale, mask
the last fifteen R values, and run one forecast per simulation index,
tagging rows with run index, region and error scale. -/
def anomaly_wrapper (df : List Obs) (run_dates : List ℤ) (horizon : ℕ)
    (simulations : ℕ) (social_mod : Option ℚ)
    (noise : ℕ → ℕ → ℕ → ℚ) : Except Err (List OutRow) :=
  ((uniqueRegions df).enum.mapM (fun rp =>
    let region_df := get_epivars (regionSeries df rp.2)
    (run_dates.enum.mapM (fun dp =>
      let forc_df := region_df.filter (fun r => r.ds ≤ dp.2)
      let ev := errVarSq (forc_df.map (·.percent_ill))
      let masked := maskR15 forc_df
      ((List.range simulations).mapM (fun s =>
        (r0_forecast (simSeries masked (noise rp.1 dp.1) s) horizon
            social_mod).map (fun pts => pts.map (fun p =>
          { ds := p.ds, cutoff := p.cutoff, percent_ill := p.percent_ill,
            run := s, region := rp.2, error_scale_sq := ev })))).map
        List.flatten)).map List.flatten)).map List.flatten

lemma isOkB_map {ε α β : Type} (f : α → β) (e : Except ε α) :
    isOkB (e.map f) = isOkB e := by
  cases e <;> rfl

lemma mem_insKey {x a : ℕ} {l : List ℕ} : x ∈ insKey a l ↔ x = a ∨ x ∈ l := by
  induction l with
  | nil => simp [insKey]
  | cons y ys ih =>
    by_cases h1 : a = y
    · subst h1
      simp [insKey]
    · by_cases h2 : a < y
      · simp [insKey, h1, h2, ih]
        try tauto
      · simp [insKey, h1, h2, ih]
        try tauto

lemma mem_sortedDedup {x : ℕ} {l : List ℕ} : x ∈ sortedDedup l ↔ x ∈ l := by
  induction l with
  | nil => simp [sortedDedup]
  | cons y ys ih =>
    simp only [sortedDedup, List.foldr_cons, List.mem_cons]
    rw [show List.foldr insKey [] ys = sortedDedup ys from rfl] at *
    rw [mem_insKey, ih]

lemma lookupT_map_pair_mem {α : Type} {l : List ℕ} {f : ℕ → α} {x : ℕ}
    (hx : x ∈ l) : lookupT (l.map (fun k => (k, f k))) x = some (f x) := by
  induction l with
  | nil => cases hx
  | cons y ys ih =>
    rcases List.mem_cons.mp hx with h | h
    · subst h
      simp [lookupT]
    · by_cases he : x = y
      · subst he
        simp [lookupT]
      · simp [lookupT, he, ih h]

lemma lookupT_map_pair_not_mem {α : Type} {l : List ℕ} {f : ℕ → α} {x : ℕ}
    (hx : ¬ x ∈ l) : lookupT (l.map (fun k => (k, f k))) x = none := by
  induction l with
  | nil => rfl
  | cons y ys ih =>
    have hxy : ¬ x = y := fun h => hx (h ▸ List.mem_cons_self y ys)
    have hxs : ¬ x ∈ ys := fun h => hx (List.mem_cons_of_mem y h)
    simp [lookupT, hxy, ih hxs]

lemma socialAdjust_map_pair (sm : Option ℚ) (l : List ℕ) (f : ℕ → Option ℚ) :
    socialAdjust sm (l.map (fun k => (k, f k)))
      = l.map (fun k => (k,
          match sm with
          | none => f k
          | some m => if 76 ≤ k then (f k).map (· * m) else f k)) := by
  cases sm with
  | none => rfl
  | some m =>
    simp only [socialAdjust, List.map_map]
    apply List.map_congr_left
    intro k _
    by_cases h : 76 ≤ k <;> simp [h]

lemma avgRTable_lookup_isSome {df : List EpiRow} {sm : Option ℚ} {x : ℕ}
    (hx : x ∈ df.filterMap (·.doy)) :
    (lookupT (avgRTable df sm) x).isSome := by
  rw [avgRTable, groupMedians, socialAdjust_map_pair,
    lookupT_map_pair_mem (mem_sortedDedup.mpr hx)]
  rfl

lemma avgRTable_lookup_none {df : List EpiRow} {sm : Option ℚ} {x : ℕ}
    (hx : ¬ x ∈ df.filterMap (·.doy)) :
    lookupT (avgRTable df sm) x = none := by
  rw [avgRTable, groupMedians, socialAdjust_map_pair,
    lookupT_map_pair_not_mem (fun h => hx (mem_sortedDedup.mp h))]

lemma mergeAvg_ds {pred : List PredRow} {t : List (ℕ × Option ℚ)}
    (h : ∀ p ∈ pred, (lookupT t p.doy).isSome) :
    (mergeAvg pred t).map (·.ds) = pred.map (·.ds) := by
  induction pred with
  | nil => rfl
  | cons p ps ih =>
    have hp := h p (List.mem_cons_self p ps)
    obtain ⟨v, hv⟩ := Option.isSome_iff_exists.mp hp
    have ht : mergeAvg (p :: ps) t = { p with avg_r := v } :: mergeAvg ps t := by
      simp [mergeAvg, List.filterMap_cons, hv]
    rw [ht, List.map_cons, List.map_cons,
      ih (fun q hq => h q (List.mem_cons_of_mem p hq))]

lemma filterMap_length_lt {α β : Type} {f : α → Option β} {l : List α} {a : α}
    (ha : a ∈ l) (hf : f a = none) :
    (l.filterMap f).length < l.length := by
  induction l with
  | nil => cases ha
  | cons x xs ih =>
    rcases List.mem_cons.mp ha with h | h
    · subst h
      simp only [List.filterMap_cons, hf, List.length_cons]
      exact Nat.lt_succ_of_le (List.length_filterMap_le f xs)
    · simp only [List.filterMap_cons, List.length_cons]
      cases hx : f x with
      | none => exact Nat.lt_succ_of_lt (ih h)
      | some b => simpa using ih h

lemma nodup_filter_le_one {df : List EpiRow} (hnd : (df.map (·.ds)).Nodup)
    (x : ℤ) : (df.filter (fun r => r.ds = x)).length ≤ 1 := by
  induction df with
  | nil => simp
  | cons r t ih =>
    simp only [List.map_cons, List.nodup_cons] at hnd
    by_cases h : r.ds = x
    · have ht : List.filter (fun r => decide (r.ds = x)) t = [] := by
        apply List.filter_eq_nil_iff.mpr
        intro s hs hsx
        exact hnd.1 (h ▸ (by simpa using hsx) ▸ List.mem_map_of_mem (·.ds) hs)
      simp [List.filter_cons, h, ht]
    · simpa [List.filter_cons, h] using ih hnd.2

lemma mergeHist_ds {pred : List PredRow} {df : List EpiRow}
    (h : ∀ x : ℤ, (df.filter (fun r => r.ds = x)).length ≤ 1) :
    (mergeHist pred df).map (·.ds) = pred.map (·.ds) := by
  induction pred with
  | nil => rfl
  | cons p ps ih =>
    simp only [mergeHist, List.flatMap_cons] at *
    rw [List.map_append, ih]
    have hp := h p.ds
    cases hf : df.filter (fun r => r.ds = p.ds) with
    | nil => rfl
    | cons m ms =>
      rw [hf] at hp
      simp only [List.length_cons] at hp
      have : ms = [] := List.eq_nil_of_length_eq_zero (by omega)
      subst this
      rfl

lemma set_getElem_self {α : Type} (l : List α) (i : ℕ) (h : i < l.length) :
    l.set i l[i] = l := by
  apply List.ext_getElem?
  intro n
  rw [List.getElem?_set]
  split
  · next heq =>
    subst heq
    simp [h, List.getElem?_eq_getElem h]
  · rfl

lemma forecastLoop_ok : ∀ (steps i : ℕ) (rows : List PredRow), 5 ≤ i →
    i + steps ≤ rows.length →
    ∃ rows2, forecastLoop rows i steps = .ok rows2 ∧
      rows2.map (·.ds) = rows.map (·.ds) := by
  intro steps
  induction steps with
  | zero => intro i rows _ _; exact ⟨rows, rfl, rfl⟩
  | succ steps ih =>
    intro i rows h5 hlen
    have hi : i < rows.length := by omega
    have hwin : ((rows.drop (i - 5)).take 5).length = 5 := by
      simp only [List.length_take, List.length_drop]
      omega
    obtain ⟨rows2, hrec, hds⟩ :=
      ih (i + 1) (rows.set i { rows[i] with
        percent_ill := (ibarO (((rows.drop (i - 5)).take 5).map
          (·.percent_ill)) wKernel).bind
          (fun x => rows[i].avg_r.map (fun r => x * r)) })
        (by omega) (by simpa using by omega)
    refine ⟨rows2, ?_, ?_⟩
    · rw [forecastLoop, if_pos hwin, List.getElem?_eq_getElem hi]
      exact hrec
    · rw [hds, List.map_set]
      have him : i < (rows.map (·.ds)).length := by simpa using hi
      have : ({ rows[i] with
          percent_ill := (ibarO (((rows.drop (i - 5)).take 5).map
            (·.percent_ill)) wKernel).bind
            (fun x => rows[i].avg_r.map (fun r => x * r)) } : PredRow).ds
          = (rows.map (·.ds))[i] := by
        simp [List.getElem_map]
      rw [this, set_getElem_self _ _ (by simpa using hi)]

lemma forecastLoop_err : ∀ (steps i : ℕ) (rows : List PredRow), 5 ≤ i →
    1 ≤ steps → rows.length < i + steps →
    isOkB (forecastLoop rows i steps) = false := by
  intro steps
  induction steps with
  | zero => intro i rows _ h1 _; omega
  | succ steps ih =>
    intro i rows h5 _ hlen
    by_cases hi : i < rows.length
    · have hwin : ((rows.drop (i - 5)).take 5).length = 5 := by
        simp only [List.length_take, List.length_drop]
        omega
      rw [forecastLoop, if_pos hwin, List.getElem?_eq_getElem hi]
      exact ih (i + 1) _ (by omega) (by omega) (by simpa using by omega)
    · by_cases hwin : ((rows.drop (i - 5)).take 5).length = 5
      · rw [forecastLoop, if_pos hwin, List.getElem?_eq_none (by omega)]
        rfl
      · rw [forecastLoop, if_neg hwin]
        rfl

lemma range_filter_after (c : ℤ) (h : ℕ) :
    (((List.range (7 * h + 5)).map (fun (j : ℕ) => c - 4 + (j : ℤ))).filter
        (fun d => c < d))
      = (List.range (7 * h)).map (fun (k : ℕ) => c + 1 + (k : ℤ)) := by
  have hsplit : List.range (7 * h + 5)
      = List.range 5 ++ (List.range (7 * h)).map (fun x => 5 + x) := by
    rw [Nat.add_comm (7 * h) 5, List.range_add]
  rw [hsplit, List.map_append, List.filter_append, List.map_map]
  have h1 : ((List.range 5).map (fun (j : ℕ) => c - 4 + (j : ℤ))).filter
      (fun d => c < d) = [] := by
    apply List.filter_eq_nil_iff.mpr
    intro d hd
    simp only [List.mem_map, List.mem_range] at hd
    obtain ⟨j, hj, rfl⟩ := hd
    simp only [decide_eq_true_eq]
    omega
  have h2 : ((List.range (7 * h)).map
      ((fun (j : ℕ) => c - 4 + (j : ℤ)) ∘ (fun x => 5 + x))).filter
      (fun d => c < d)
      = (List.range (7 * h)).map
        ((fun (j : ℕ) => c - 4 + (j : ℤ)) ∘ (fun x => 5 + x)) := by
    apply List.filter_eq_self.mpr
    intro d hd
    simp only [List.mem_map, Function.comp, List.mem_range] at hd
    obtain ⟨j, hj, rfl⟩ := hd
    simp only [decide_eq_true_eq]
    push_cast
    omega
  rw [h1, h2, List.nil_append]
  apply List.map_congr_left
  intro k _
  simp only [Function.comp]
  push_cast
  ring

lemma mkPred_ds (c : ℤ) (n : ℕ) :
    (mkPred c n).map (·.ds) = (List.range n).map (fun (j : ℕ) => c - 4 + (j : ℤ)) := by
  simp [mkPred, List.map_map, Function.comp]

lemma r0_spec (df : List EpiRow) (h : ℕ) (sm : Option ℚ)
    (hne : df ≠ [])
    (hdoy : df.all (fun r => r.doy.isSome) = true)
    (hnd : (df.map (·.ds)).Nodup)
    (hkeys : ∀ j : ℕ, j ∈ List.range (7 * h + 5) →
      dayofyear (maxDs df - 4 + (j : ℤ)) ∈ df.filterMap (·.doy)) :
    ∃ pts, r0_forecast df h sm = .ok pts ∧
      pts.map (·.ds) = (List.range (7 * h)).map (fun (k : ℕ) => maxDs df + 1 + (k : ℤ)) ∧
      pts.map (·.cutoff) = List.replicate (7 * h) (maxDs df) := by
  have hlookup : ∀ p ∈ mkPred (maxDs df) (7 * h + 5),
      (lookupT (avgRTable df sm) p.doy).isSome := by
    intro p hp
    simp only [mkPred, List.mem_map, List.mem_range] at hp
    obtain ⟨j, hj, rfl⟩ := hp
    exact avgRTable_lookup_isSome (hkeys j (List.mem_range.mpr hj))
  have hm2 : (mergeHist (mergeAvg (mkPred (maxDs df) (7 * h + 5))
        (avgRTable df sm)) df).map (·.ds)
      = (List.range (7 * h + 5)).map (fun (j : ℕ) => maxDs df - 4 + (j : ℤ)) := by
    rw [mergeHist_ds (nodup_filter_le_one hnd), mergeAvg_ds hlookup, mkPred_ds]
  have hmlen : (mergeHist (mergeAvg (mkPred (maxDs df) (7 * h + 5))
      (avgRTable df sm)) df).length = 7 * h + 5 := by
    have := congrArg List.length hm2
    simpa using this
  obtain ⟨rows2, hloop, hds2⟩ := forecastLoop_ok (7 * h) 5
    (mergeHist (mergeAvg (mkPred (maxDs df) (7 * h + 5)) (avgRTable df sm)) df)
    (le_refl 5) (by omega)
  have hfilter : (rows2.filter (fun r => maxDs df < r.ds)).map (·.ds)
      = (List.range (7 * h)).map (fun (k : ℕ) => maxDs df + 1 + (k : ℤ)) := by
    have hcm : (rows2.map (·.ds)).filter (fun d => maxDs df < d)
        = (rows2.filter (fun r => maxDs df < r.ds)).map (·.ds) :=
      List.filter_map (fun r : PredRow => r.ds) rows2
    rw [← hcm, hds2, hm2, range_filter_after]
  have hflen : (rows2.filter (fun r => maxDs df < r.ds)).length = 7 * h := by
    have := congrArg List.length hfilter
    simpa using this
  refine ⟨(rows2.filter (fun r => maxDs df < r.ds)).map (fun r =>
    { ds := r.ds, cutoff := maxDs df, percent_ill := r.percent_ill }), ?_, ?_, ?_⟩
  · cases df with
    | nil => exact absurd rfl hne
    | cons d0 rest =>
      simp only [r0_forecast, if_pos hdoy]
      rw [hloop]
      rfl
  · rw [List.map_map]
    exact hfilter
  · rw [List.map_map]
    rw [show ((fun p : ForecastPoint => p.cutoff) ∘ (fun r : PredRow =>
        ({ ds := r.ds, cutoff := maxDs df, percent_ill := r.percent_ill } :
          ForecastPoint))) = fun _ : PredRow => maxDs df from rfl]
    rw [List.map_const', hflen]

lemma mergeHist_length {pred : List PredRow} {df : List EpiRow}
    (h : ∀ x : ℤ, (df.filter (fun r => r.ds = x)).length ≤ 1) :
    (mergeHist pred df).length = pred.length := by
  have := congrArg List.length (@mergeHist_ds pred df h)
  simpa using this

lemma r0_err (df : List EpiRow) (h : ℕ) (sm : Option ℚ)
    (hh : 1 ≤ h)
    (hdoy : df.all (fun r => r.doy.isSome) = true)
    (hnd : (df.map (·.ds)).Nodup)
    (hmiss : ∃ j : ℕ, j ∈ List.range (7 * h + 5) ∧
      ¬ dayofyear (maxDs df - 4 + (j : ℤ)) ∈ df.filterMap (·.doy)) :
    isOkB (r0_forecast df h sm) = false := by
  cases df with
  | nil => simp [r0_forecast, isOkB]
  | cons d0 rest =>
    obtain ⟨j, hj, hnotin⟩ := hmiss
    have hdrop : (mergeAvg (mkPred (maxDs (d0 :: rest)) (7 * h + 5))
        (avgRTable (d0 :: rest) sm)).length < 7 * h + 5 := by
      have hmem : ({ ds := maxDs (d0 :: rest) - 4 + (j : ℤ),
                     doy := dayofyear (maxDs (d0 :: rest) - 4 + (j : ℤ)),
                     avg_r := none, percent_ill := none } : PredRow)
          ∈ mkPred (maxDs (d0 :: rest)) (7 * h + 5) := by
        simp only [mkPred, List.mem_map]
        exact ⟨j, by simpa using hj, rfl⟩
      have hnone : (fun p : PredRow =>
          (lookupT (avgRTable (d0 :: rest) sm) p.doy).map
            (fun v => { p with avg_r := v }))
          ({ ds := maxDs (d0 :: rest) - 4 + (j : ℤ),
             doy := dayofyear (maxDs (d0 :: rest) - 4 + (j : ℤ)),
             avg_r := none, percent_ill := none } : PredRow) = none := by
        simp only [avgRTable_lookup_none hnotin, Option.map_none']
      have := filterMap_length_lt (f := fun p : PredRow =>
        (lookupT (avgRTable (d0 :: rest) sm) p.doy).map
          (fun v => { p with avg_r := v })) hmem hnone
      calc (mergeAvg (mkPred (maxDs (d0 :: rest)) (7 * h + 5))
            (avgRTable (d0 :: rest) sm)).length
          < (mkPred (maxDs (d0 :: rest)) (7 * h + 5)).length := this
        _ = 7 * h + 5 := by simp [mkPred]
    have hlen : (mergeHist (mergeAvg (mkPred (maxDs (d0 :: rest)) (7 * h + 5))
        (avgRTable (d0 :: rest) sm)) (d0 :: rest)).length < 7 * h + 5 := by
      rw [mergeHist_length (nodup_filter_le_one hnd)]
      exact hdrop
    have hloop := forecastLoop_err (7 * h) 5
      (mergeHist (mergeAvg (mkPred (maxDs (d0 :: rest)) (7 * h + 5))
        (avgRTable (d0 :: rest) sm)) (d0 :: rest))
      (le_refl 5) (by omega) (by omega)
    simp only [r0_forecast, if_pos hdoy]
    rw [isOkB_map]
    exact hloop

/-- The R value the specification describes at an index with full
windows: the centered 30-day moving average of next-day incidence
(incidence indices i - 14 .. i + 15) divided by the centered 30-day
moving average of ibar (indices i - 15 .. i + 14).  This definition
follows the words of the specification, to be compared against the R
column the code computes. -/
def R_claim (xs : List ℚ) (i : ℕ) : ℚ :=
  (((List.range 30).map (fun (k : ℕ) => xs.getD (i - 14 + k) 0)).sum / 30) /
  (((List.range 30).map (fun (k : ℕ) => (ibarAt xs (i - 15 + k)).getD 0)).sum / 30)

/-- The gap-fill value the specification describes: the arithmetic mean
of the defined R values, whose indices are exactly those admitting full
windows. -/
def R_claim_fill (xs : List ℚ) : ℚ :=
  meanQ (((List.range xs.length).filter
    (fun j => decide (15 ≤ j ∧ j + 16 ≤ xs.length))).map (R_claim xs))

lemma seqO_eq_some {l : List (Option ℚ)} (h : ∀ o ∈ l, o.isSome) :
    seqO l = some (l.map (fun o => o.getD 0)) := by
  induction l with
  | nil => rfl
  | cons o t ih =>
    cases o with
    | none => exact absurd (h none (List.mem_cons_self _ _)) (by simp)
    | some x =>
      rw [seqO, ih (fun o ho => h o (List.mem_cons_of_mem _ ho))]
      rfl

lemma seqO_eq_none {l : List (Option ℚ)} (h : none ∈ l) : seqO l = none := by
  induction l with
  | nil => cases h
  | cons o t ih =>
    cases o with
    | none => rfl
    | some x =>
      rcases List.mem_cons.mp h with h1 | h1
      · cases h1
      · rw [seqO, ih h1]
        rfl

lemma meanQ_pos {l : List ℚ} (hne : l ≠ []) (h : ∀ x ∈ l, 0 < x) :
    0 < meanQ l := by
  apply div_pos (List.sum_pos l h hne)
  exact_mod_cast List.length_pos.mpr hne

lemma dotQ_pos : ∀ (v w : List ℚ), v.length = w.length → w ≠ [] →
    (∀ x ∈ v, 0 < x) → (∀ y ∈ w, 0 < y) → 0 < dotQ v w := by
  intro v
  induction v with
  | nil =>
    intro w hlen hne _ _
    exact absurd (List.eq_nil_of_length_eq_zero hlen.symm) hne
  | cons a as ih =>
    intro w hlen hne hv hw
    cases w with
    | nil => simp at hlen
    | cons b bs =>
      have hab : 0 < a * b :=
        mul_pos (hv a (List.mem_cons_self _ _)) (hw b (List.mem_cons_self _ _))
      cases as with
      | nil =>
        have : bs = [] := by
          simp only [List.length] at hlen
          exact List.eq_nil_of_length_eq_zero (by omega)
        subst this
        simpa [dotQ] using hab
      | cons c cs =>
        have hbs : bs ≠ [] := by
          intro hb
          subst hb
          simp at hlen
        have hrec := ih bs (by simpa using hlen) hbs
          (fun x hx => hv x (List.mem_cons_of_mem _ hx))
          (fun y hy => hw y (List.mem_cons_of_mem _ hy))
        exact add_pos hab hrec

lemma wKernel_pos : ∀ y ∈ wKernel, 0 < y := by
  intro y hy
  simp only [wKernel, List.mem_cons, List.not_mem_nil, or_false] at hy
  rcases hy with rfl | rfl | rfl | rfl | rfl <;> norm_num

lemma ibar_pos {l : List ℚ} (h5 : l.length = 5) (h : ∀ x ∈ l, 0 < x) :
    0 < ibar l wKernel := by
  apply dotQ_pos
  · simpa [wKernel]
  · simp [wKernel]
  · intro x hx
    exact h x (List.mem_reverse.mp hx)
  · exact wKernel_pos

lemma ibarAt_isSome {xs : List ℚ} {j : ℕ} (hj : j < xs.length) :
    (ibarAt xs j).isSome := by
  unfold ibarAt
  by_cases h : j < 5 ∧ j < xs.length
  · rw [if_pos h]
    rfl
  · rw [if_neg h]
    unfold rollApply5
    rw [if_pos ⟨by omega, hj⟩]
    rfl

lemma ibarAt_pos {xs : List ℚ} (hpos : ∀ x ∈ xs, 0 < x) (h5 : 5 ≤ xs.length)
    {j : ℕ} (hj : j < xs.length) : 0 < (ibarAt xs j).getD 0 := by
  unfold ibarAt
  by_cases h : j < 5 ∧ j < xs.length
  · rw [if_pos h]
    apply meanQ_pos
    · have : (xs.take 5).length = 5 := by
        rw [List.length_take]
        omega
      intro hnil
      rw [hnil] at this
      simp at this
    · intro x hx
      exact hpos x (List.mem_of_mem_take hx)
  · rw [if_neg h]
    unfold rollApply5
    rw [if_pos ⟨by omega, hj⟩]
    apply ibar_pos
    · rw [List.length_take, List.length_drop]
      omega
    · intro x hx
      exact hpos x (List.mem_of_mem_drop (List.mem_of_mem_take hx))

lemma num_char {xs : List ℚ} {i : ℕ} :
    rollMeanC30 (shiftN1 xs) xs.length i
      = if 15 ≤ i ∧ i + 16 ≤ xs.length then
          some (((List.range 30).map (fun (k : ℕ) => xs.getD (i - 14 + k) 0)).sum / 30)
        else none := by
  unfold rollMeanC30
  by_cases hg : 15 ≤ i ∧ i + 15 ≤ xs.length
  · rw [if_pos hg]
    by_cases h16 : i + 16 ≤ xs.length
    · rw [if_pos ⟨hg.1, h16⟩]
      have hsome : ∀ o ∈ (List.range 30).map (fun k => shiftN1 xs (i - 15 + k)),
          o.isSome := by
        intro o ho
        simp only [List.mem_map, List.mem_range] at ho
        obtain ⟨k, hk, rfl⟩ := ho
        unfold shiftN1
        rw [if_pos (by omega)]
        rfl
      rw [seqO_eq_some hsome]
      simp only [Option.map_some', List.map_map]
      congr 1
      have hlen30 : (((List.range 30).map
          ((fun o : Option ℚ => o.getD 0) ∘ (fun k => shiftN1 xs (i - 15 + k))))).length = 30 := by
        simp
      rw [meanQ, hlen30]
      congr 1
      apply congrArg List.sum
      apply List.map_congr_left
      intro k hk
      simp only [List.mem_range] at hk
      simp only [Function.comp]
      unfold shiftN1
      rw [if_pos (by omega)]
      have : i - 15 + k + 1 = i - 14 + k := by omega
      rw [Option.getD_some, this]
    · rw [if_neg (fun hc => h16 hc.2)]
      have hmem : (none : Option ℚ) ∈ (List.range 30).map
          (fun k => shiftN1 xs (i - 15 + k)) := by
        have h29 : shiftN1 xs (i - 15 + 29) = none := by
          unfold shiftN1
          rw [if_neg (by omega)]
        rw [← h29]
        exact List.mem_map_of_mem _ (List.mem_range.mpr (by omega))
      rw [seqO_eq_none hmem]
      rfl
  · rw [if_neg hg, if_neg (fun hc => hg ⟨hc.1, by omega⟩)]

lemma den_char {xs : List ℚ} {i : ℕ} :
    rollMeanC30 (ibarAt xs) xs.length i
      = if 15 ≤ i ∧ i + 15 ≤ xs.length then
          some (((List.range 30).map
            (fun (k : ℕ) => (ibarAt xs (i - 15 + k)).getD 0)).sum / 30)
        else none := by
  unfold rollMeanC30
  by_cases hg : 15 ≤ i ∧ i + 15 ≤ xs.length
  · rw [if_pos hg, if_pos hg]
    have hsome : ∀ o ∈ (List.range 30).map (fun k => ibarAt xs (i - 15 + k)),
        o.isSome := by
      intro o ho
      simp only [List.mem_map, List.mem_range] at ho
      obtain ⟨k, hk, rfl⟩ := ho
      exact ibarAt_isSome (by omega)
    rw [seqO_eq_some hsome]
    simp only [Option.map_some', List.map_map]
    congr 1
  · rw [if_neg hg, if_neg hg]

lemma den_pos {xs : List ℚ} (h5 : 5 ≤ xs.length)
    (hpos : ∀ x ∈ xs, 0 < x) {i : ℕ} (hlb : 15 ≤ i) (hub : i + 15 ≤ xs.length) :
    0 < ((List.range 30).map
      (fun (k : ℕ) => (ibarAt xs (i - 15 + k)).getD 0)).sum / 30 := by
  apply div_pos
  · apply List.sum_pos
    · intro x hx
      simp only [List.mem_map, List.mem_range] at hx
      obtain ⟨k, hk, rfl⟩ := hx
      exact ibarAt_pos hpos h5 (by omega)
    · simp
  · norm_num

lemma Rraw_char {xs : List ℚ} (h5 : 5 ≤ xs.length)
    (hpos : ∀ x ∈ xs, 0 < x) (i : ℕ) :
    Rraw xs i = if 15 ≤ i ∧ i + 16 ≤ xs.length then some (R_claim xs i)
      else none := by
  unfold Rraw
  rw [num_char, den_char]
  by_cases hc : 15 ≤ i ∧ i + 16 ≤ xs.length
  · rw [if_pos hc, if_pos ⟨hc.1, by omega⟩, if_pos hc]
    have hden := den_pos h5 hpos (i := i) hc.1 (by omega)
    simp only [divO, Option.bind_some, Option.some_bind]
    rw [if_neg hden.ne', R_claim]
  · rw [if_neg hc, if_neg hc]
    simp [divO]

lemma filterMap_eq_map_filter {α β : Type} {f : α → Option β}
    {p : α → Prop} [DecidablePred p] {g : α → β} {l : List α}
    (h : ∀ a ∈ l, f a = if p a then some (g a) else none) :
    l.filterMap f = (l.filter (fun a => decide (p a))).map g := by
  induction l with
  | nil => rfl
  | cons a t ih =>
    have ha := h a (List.mem_cons_self _ _)
    have ht := ih (fun b hb => h b (List.mem_cons_of_mem _ hb))
    by_cases hp : p a
    · rw [List.filterMap_cons, ha, if_pos hp, List.filter_cons,
        if_pos (by simpa using hp), List.map_cons, ht]
    · rw [List.filterMap_cons, ha, if_neg hp, List.filter_cons,
        if_neg (by simpa using hp), ht]

lemma meanDefR_char {xs : List ℚ} (h5 : 5 ≤ xs.length)
    (hpos : ∀ x ∈ xs, 0 < x) :
    meanDefR xs = if 31 ≤ xs.length then some (R_claim_fill xs) else none := by
  unfold meanDefR
  rw [filterMap_eq_map_filter (g := R_claim xs)
    (p := fun j => 15 ≤ j ∧ j + 16 ≤ xs.length)
    (fun j _ => Rraw_char h5 hpos j)]
  by_cases h31 : 31 ≤ xs.length
  · rw [if_pos h31]
    have hmem : 15 ∈ (List.range xs.length).filter
        (fun j => decide (15 ≤ j ∧ j + 16 ≤ xs.length)) := by
      rw [List.mem_filter]
      exact ⟨List.mem_range.mpr (by omega), by simp; omega⟩
    have hne : ((List.range xs.length).filter
        (fun j => decide (15 ≤ j ∧ j + 16 ≤ xs.length))).map (R_claim xs) ≠ [] := by
      intro hc
      rw [List.map_eq_nil_iff] at hc
      rw [hc] at hmem
      cases hmem
    rw [if_neg (by simpa [List.isEmpty_iff] using hne)]
    rfl
  · rw [if_neg h31]
    have hnil : (List.range xs.length).filter
        (fun j => decide (15 ≤ j ∧ j + 16 ≤ xs.length)) = [] := by
      apply List.filter_eq_nil_iff.mpr
      intro j hj
      simp only [decide_eq_true_eq, not_and]
      intro
      omega
    rw [hnil]
    rfl

/-- C3: for every series of length at least 5 (positive, so that no
effective-incidence window has a zero mean), the R column equals the
ratio of the centered 30-day mean of next-day incidence to the centered
30-day mean of ibar wherever both windows fit inside the known history,
and every other entry is filled with the arithmetic mean of the defined
ratios (no entry is defined at all when the series is shorter than 31). -/
theorem c3_R_definition (xs : List ℚ) (h5 : 5 ≤ xs.length)
    (hpos : ∀ x ∈ xs, 0 < x) :
    ∀ i < xs.length,
      RAt xs i = if 15 ≤ i ∧ i + 16 ≤ xs.length then some (R_claim xs i)
        else if 31 ≤ xs.length then some (R_claim_fill xs) else none := by
  intro i hi
  unfold RAt
  rw [if_pos hi, Rraw_char h5 hpos i]
  by_cases hc : 15 ≤ i ∧ i + 16 ≤ xs.length
  · rw [if_pos hc, if_pos hc]
  · rw [if_neg hc, if_neg hc]
    exact meanDefR_char h5 hpos

lemma maskR15_getElem? (df : List EpiRow) (i : ℕ) :
    (maskR15 df)[i]? = if hi : i < df.length then
      some (if df.length ≤ i + 15 then
        { df[i] with R := none } else df[i])
    else none := by
  unfold maskR15
  by_cases hi : i < df.length
  · rw [List.getElem?_map, List.getElem?_range hi, dif_pos hi]
    simp only [Option.map_some']
    rw [List.getD_eq_getElem?_getD, List.getElem?_eq_getElem hi]
    simp only [Option.getD_some]
  · rw [dif_neg hi, List.getElem?_eq_none (by simpa using hi)]

lemma epiRow_ext {r1 r2 : EpiRow}
    (h1 : ({ r1 with R := none } : EpiRow) = { r2 with R := none })
    (h2 : r1.R = r2.R) : r1 = r2 := by
  cases r1
  cases r2
  simp only [EpiRow.mk.injEq, and_true] at h1 ⊢
  exact ⟨h1.1, h1.2.1, h1.2.2.1, h2, h1.2.2.2.2⟩

/-- C7: the ReproductionProfile built inside the forecaster from a
truncated frame never depends on the R values of the last fifteen rows:
two truncated frames agreeing outside them (same dates, incidence, ibar
and doy everywhere; same R on every row at least fifteen from the end)
yield the same day-of-year median table, whatever the social modifier. -/
theorem c7_leakage_guard (df1 df2 : List EpiRow) (sm : Option ℚ)
    (hlen : df1.length = df2.length)
    (hfields : df1.map (fun r => { r with R := none })
      = df2.map (fun r => { r with R := none }))
    (hR : ∀ i : ℕ, i + 16 ≤ df1.length →
      (df1[i]?).map (·.R) = (df2[i]?).map (·.R)) :
    avgRTable (maskR15 df1) sm = avgRTable (maskR15 df2) sm := by
  have hmask : maskR15 df1 = maskR15 df2 := by
    apply List.ext_getElem?
    intro i
    rw [maskR15_getElem?, maskR15_getElem?]
    by_cases hi : i < df1.length
    · have hi2 : i < df2.length := hlen ▸ hi
      rw [dif_pos hi, dif_pos hi2, ← hlen]
      have hg := congrArg (fun l => l[i]?) hfields
      simp only [List.getElem?_map, List.getElem?_eq_getElem hi,
        List.getElem?_eq_getElem hi2, Option.map_some'] at hg
      have her : ({ df1[i] with R := none } : EpiRow)
          = { df2[i] with R := none } := by
        exact Option.some.injEq _ _ ▸ hg
      by_cases hc : df1.length ≤ i + 15
      · rw [if_pos hc, if_pos hc]
        rw [her]
      · rw [if_neg hc, if_neg hc]
        have hRi := hR i (by omega)
        rw [List.getElem?_eq_getElem hi, List.getElem?_eq_getElem hi2] at hRi
        simp only [Option.map_some', Option.some.injEq] at hRi
        exact congrArg some (epiRow_ext her hRi)
    · have hi2 : ¬ i < df2.length := fun hc => hi (hlen ▸ hc)
      rw [dif_neg hi, dif_neg hi2]
  rw [hmask]

lemma foldl_max_mem (l : List EpiRow) : ∀ init : ℤ,
    l.foldl (fun m s => max m s.ds) init = init ∨
    l.foldl (fun m s => max m s.ds) init ∈ l.map (·.ds) := by
  induction l with
  | nil =>
    intro init
    left
    rfl
  | cons r t ih =>
    intro init
    rw [List.foldl_cons]
    rcases ih (max init r.ds) with h | h
    · rw [h]
      rcases max_choice init r.ds with hm | hm
      · left
        exact hm
      · right
        rw [hm, List.map_cons]
        exact List.mem_cons_self _ _
    · right
      rw [List.map_cons]
      exact List.mem_cons_of_mem _ h

lemma maxDs_mem {df : List EpiRow} (hne : df ≠ []) :
    maxDs df ∈ df.map (·.ds) := by
  cases df with
  | nil => exact absurd rfl hne
  | cons r t =>
    simp only [maxDs]
    rcases foldl_max_mem t r.ds with h | h
    · rw [h, List.map_cons]
      exact List.mem_cons_self _ _
    · rw [List.map_cons]
      exact List.mem_cons_of_mem _ h

lemma maxDs_le {df : List EpiRow} {b : ℤ} (hne : df ≠ [])
    (h : ∀ r ∈ df, r.ds ≤ b) : maxDs df ≤ b := by
  have hm := maxDs_mem hne
  rw [List.mem_map] at hm
  obtain ⟨r, hr, he⟩ := hm
  rw [← he]
  exact h r hr

/-- A two-block region history with constant incidence 2: one week of
summer 2018 (epoch days 17713 .. 17719, days of year 182 .. 188) and
the forty days ending 2019-06-30 (epoch days 18038 .. 18077, days of
year 142 .. 181), with R one everywhere and the doy column populated.
Its day-of-year keys cover every day a one-week forecast from the
cutoff 18077 touches. -/
def sampleFrame : List EpiRow :=
  ((List.range 7).map (fun (k : ℕ) => ((17713 : ℤ) + k))
    ++ (List.range 40).map (fun (k : ℕ) => ((18038 : ℤ) + k))).map (fun d =>
    { ds := d, percent_ill := 2, ibar := some 2, R := some 1,
      doy := some (dayofyear d) })

/-- The same history with the prior-year block cut to six days, so that
day of year 188 — needed for the seventh forecast day 18084 — has no
entry in the day-of-year table. -/
def gapFrame : List EpiRow :=
  ((List.range 6).map (fun (k : ℕ) => ((17713 : ℤ) + k))
    ++ (List.range 40).map (fun (k : ℕ) => ((18038 : ℤ) + k))).map (fun d =>
    { ds := d, percent_ill := 2, ibar := some 2, R := some 1,
      doy := some (dayofyear d) })

/-- A well-formed one-region input table: columns region, ds and
percent_ill only, forty consecutive days, constant incidence. -/
def c1Obs : List Obs :=
  (List.range 40).map (fun (k : ℕ) =>
    { region := "X", ds := (18038 : ℤ) + k, percent_ill := 2 })

/-- Six observations of one region in chronological order. -/
def c2Sorted : List Obs :=
  [{ region := "X", ds := 0, percent_ill := 0 },
   { region := "X", ds := 1, percent_ill := 0 },
   { region := "X", ds := 2, percent_ill := 0 },
   { region := "X", ds := 3, percent_ill := 0 },
   { region := "X", ds := 4, percent_ill := 0 },
   { region := "X", ds := 5, percent_ill := 1 }]

/-- The same six observations presented in reverse order. -/
def c2Rev : List Obs := c2Sorted.reverse

set_option maxRecDepth 100000 in
/-- C1: the orchestrator cannot complete on a well-formed input table
holding exactly the columns region, ds and percent_ill: the forecaster
groups the history frame by a doy column that no pipeline stage ever
creates, so the very first simulation run raises a KeyError.  Here the
input is one region with forty consecutive daily observations, one run
date inside the history, horizon one week and a single simulation. -/
theorem c1_missing_doy_column :
    anomaly_wrapper c1Obs [18077] 1 1 none (fun _ _ _ => 0)
      = .error .keyErrorDoy := by
  decide

/-- C2: the orchestrator does not derive the epi variables from
date-sorted observations: the source sorts a discarded temporary, so the
derivation runs in input row order, and presenting the same six
observations in reverse order changes the ibar derived for the
observation dated 5 — the claimed invariance under input row order
fails. -/
theorem c2_order_dependence :
    ((get_epivars (regionSeries c2Rev "X")).find? (fun r => r.ds == 5)).map
        (·.ibar)
      ≠ ((get_epivars (regionSeries c2Sorted "X")).find? (fun r => r.ds == 5)).map
        (·.ibar) := by
  have e1 : ((get_epivars (regionSeries c2Rev "X")).find? (fun r => r.ds == 5)).map
      (·.ibar) = some (ibarAt [1, 0, 0, 0, 0, 0] 0) := by rfl
  have e2 : ((get_epivars (regionSeries c2Sorted "X")).find? (fun r => r.ds == 5)).map
      (·.ibar) = some (ibarAt [0, 0, 0, 0, 0, 1] 5) := by rfl
  have v1 : ibarAt [1, 0, 0, 0, 0, 0] 0 = some (1 / 5) := by
    rw [ibarAt, if_pos (by norm_num)]
    rw [show List.take 5 ([1, 0, 0, 0, 0, 0] : List ℚ) = [1, 0, 0, 0, 0] from by
      decide]
    norm_num [meanQ]
  have v2 : ibarAt [0, 0, 0, 0, 0, 1] 5 = some (4753979 / 100000000) := by
    rw [ibarAt, if_neg (by norm_num), rollApply5, if_pos (by norm_num)]
    rw [show List.take 5 (List.drop 1 ([0, 0, 0, 0, 0, 1] : List ℚ))
        = [0, 0, 0, 0, 1] from by decide]
    rw [ibar]
    rw [show List.reverse ([0, 0, 0, 0, 1] : List ℚ) = [1, 0, 0, 0, 0] from by
      decide]
    norm_num [dotQ, wKernel]
  rw [e1, e2, v1, v2]
  simp only [ne_eq, Option.some.injEq]
  norm_num

/-- C4: whenever some forecast day within the horizon has a day of year
with no entry in the day-of-year table of a well-formed truncated frame
(populated doy column, no duplicate dates), the forecaster fails rather
than returning output restricted to the covered days. -/
theorem c4_missing_doy_fails (df : List EpiRow) (h : ℕ) (sm : Option ℚ)
    (hh : 1 ≤ h)
    (hdoy : df.all (fun r => r.doy.isSome) = true)
    (hnd : (df.map (·.ds)).Nodup)
    (hmiss : ∃ d : ℕ, 1 ≤ d ∧ d ≤ 7 * h ∧
      ¬ dayofyear (maxDs df + (d : ℤ)) ∈ df.filterMap (·.doy)) :
    isOkB (r0_forecast df h sm) = false := by
  obtain ⟨d, hd1, hd2, hnotin⟩ := hmiss
  apply r0_err df h sm hh hdoy hnd
  refine ⟨d + 4, List.mem_range.mpr (by omega), ?_⟩
  have harg : maxDs df - 4 + ((d + 4 : ℕ) : ℤ) = maxDs df + (d : ℤ) := by
    push_cast
    ring
  rw [harg]
  exact hnotin

set_option maxRecDepth 100000 in
/-- Witness for C4 at the gap frame: day of year 188, touched by the
seventh forecast day 18084, is absent, and the forecaster fails. -/
theorem c4_missing_doy_fails_witness :
    isOkB (r0_forecast gapFrame 1 none) = false :=
  c4_missing_doy_fails gapFrame 1 none (by norm_num) (by decide) (by decide)
    ⟨7, by norm_num, by norm_num, by decide⟩

/-- C8: on a window of exactly five incidence values in chronological
order, the effective-incidence estimator returns the sum over i of
kernel weight i times the incidence at position 4 - i, so the first
kernel weight multiplies the most recent observation. -/
theorem c8_estimator_formula (l : List ℚ) (h5 : l.length = 5) :
    ibar l wKernel = ((List.range 5).map (fun (i : ℕ) =>
      wKernel.getD i 0 * l.getD (4 - i) 0)).sum := by
  obtain ⟨a, b, c, d, e, rfl⟩ : ∃ a b c d e, l = [a, b, c, d, e] := by
    rcases l with _ | ⟨a, _ | ⟨b, _ | ⟨c, _ | ⟨d, _ | ⟨e, _ | ⟨f, t⟩⟩⟩⟩⟩⟩ <;>
      simp only [List.length_cons, List.length_nil] at h5 <;> try omega
    exact ⟨a, b, c, d, e, rfl⟩
  rw [show List.range 5 = [0, 1, 2, 3, 4] from by decide]
  simp only [ibar, dotQ, wKernel, List.reverse_cons, List.reverse_nil,
    List.nil_append, List.cons_append, List.map_cons, List.map_nil,
    List.sum_cons, List.sum_nil, List.getD]
  push_cast
  ring_nf
  simp [List.getD, List.get?]
  ring

/-- Witness for C8 at the window 1, 2, 3, 4, 5. -/
theorem c8_estimator_formula_witness :
    ibar [1, 2, 3, 4, 5] wKernel = ((List.range 5).map (fun (i : ℕ) =>
      wKernel.getD i 0 * ([1, 2, 3, 4, 5] : List ℚ).getD (4 - i) 0)).sum :=
  c8_estimator_formula [1, 2, 3, 4, 5] (by rfl)

/-- C9: on a series of length at least five, the derived ibar column
holds the arithmetic mean of the first five incidence values at each of
the indices 0 .. 4, and the estimator of the window ending at the index
from index 5 on. -/
theorem c9_ibar_series (xs : List ℚ) (h5 : 5 ≤ xs.length) :
    ∀ i < xs.length,
      (i < 5 → ibarAt xs i = some ((xs.take 5).sum / 5)) ∧
      (5 ≤ i → ibarAt xs i = some (ibar ((xs.drop (i - 4)).take 5) wKernel)) := by
  intro i hi
  constructor
  · intro hi5
    rw [ibarAt, if_pos ⟨hi5, hi⟩, meanQ]
    have : (xs.take 5).length = 5 := by
      rw [List.length_take]
      omega
    rw [this]
    norm_num
  · intro hi5
    rw [ibarAt, if_neg (fun hc => by omega), rollApply5, if_pos ⟨by omega, hi⟩]

/-- Witness for C9: on the series 1 .. 6, index 2 is the mean of the
first five values and index 5 applies the estimator to values 2 .. 6. -/
theorem c9_ibar_series_witness :
    ibarAt [1, 2, 3, 4, 5, 6] 2 = some ((([1, 2, 3, 4, 5, 6] : List ℚ).take 5).sum / 5)
      ∧ ibarAt [1, 2, 3, 4, 5, 6] 5
        = some (ibar ((([1, 2, 3, 4, 5, 6] : List ℚ).drop 1).take 5) wKernel) :=
  ⟨(c9_ibar_series [1, 2, 3, 4, 5, 6] (by norm_num) 2 (by norm_num)).1 (by norm_num),
   (c9_ibar_series [1, 2, 3, 4, 5, 6] (by norm_num) 5 (by norm_num)).2 (by norm_num)⟩

/-- C10: in the ensemble loop, simulation 0 hands the truncated frame to
the forecaster unchanged, and every simulation with index at least 1
adds a single scalar draw — the same scalar on every row — to the
percent_ill column, leaving all other columns untouched. -/
theorem c10_simulation_noise (df : List EpiRow) (noise : ℕ → ℚ) :
    simSeries df noise 0 = df ∧
    ∀ s : ℕ, 1 ≤ s → simSeries df noise s
      = df.map (fun r => { r with percent_ill := r.percent_ill + noise s }) := by
  constructor
  · rw [simSeries, if_pos rfl]
  · intro s hs
    rw [simSeries, if_neg (by omega)]

/-- Witness for C10 on the sample frame with a constant unit draw. -/
theorem c10_simulation_noise_witness :
    simSeries sampleFrame (fun _ => 1) 0 = sampleFrame ∧
    simSeries sampleFrame (fun _ => 1) 2
      = sampleFrame.map (fun r => { r with percent_ill := r.percent_ill + 1 }) :=
  ⟨(c10_simulation_noise sampleFrame (fun _ => 1)).1,
   (c10_simulation_noise sampleFrame (fun _ => 1)).2 2 (by norm_num)⟩

/-- C6 (amended): with every needed day of year covered, the forecaster
returns exactly horizon * 7 points whose dates form the contiguous daily
sequence starting the day after the cutoff — the greatest observation
date of the truncated frame — which sits strictly after the run date
only when the region has an observation on the run date itself. -/
theorem c6_horizon_from_cutoff (df : List EpiRow) (h : ℕ) (sm : Option ℚ)
    (hne : df ≠ [])
    (hdoy : df.all (fun r => r.doy.isSome) = true)
    (hnd : (df.map (·.ds)).Nodup)
    (hkeys : ∀ j : ℕ, j ∈ List.range (7 * h + 5) →
      dayofyear (maxDs df - 4 + (j : ℤ)) ∈ df.filterMap (·.doy)) :
    ∃ pts, r0_forecast df h sm = .ok pts ∧ pts.length = 7 * h ∧
      pts.map (·.ds)
        = (List.range (7 * h)).map (fun (k : ℕ) => maxDs df + 1 + (k : ℤ)) := by
  obtain ⟨pts, hok, hds, _⟩ := r0_spec df h sm hne hdoy hnd hkeys
  refine ⟨pts, hok, ?_, hds⟩
  have := congrArg List.length hds
  simpa using this

set_option maxRecDepth 100000 in
/-- Witness for the amended C6 at the sample frame with horizon one. -/
theorem c6_horizon_from_cutoff_witness :
    ∃ pts, r0_forecast sampleFrame 1 none = .ok pts ∧ pts.length = 7 * 1 ∧
      pts.map (·.ds)
        = (List.range (7 * 1)).map (fun (k : ℕ) => maxDs sampleFrame + 1 + (k : ℤ)) :=
  c6_horizon_from_cutoff sampleFrame 1 none (by decide) (by decide) (by decide)
    (by decide)

set_option maxRecDepth 100000 in
/-- Counterexample to C6 as stated: forecasting the sample region at run
date 18080 — a date with no observation — produces points whose dates do
not all lie strictly after the run date (the first point is dated 18078). -/
theorem c6_counterexample :
    ∃ pts, r0_forecast (sampleFrame.filter (fun r => r.ds ≤ 18080)) 1 none
        = .ok pts ∧ pts.length = 7 ∧ ∃ p ∈ pts, p.ds ≤ 18080 := by
  obtain ⟨pts, hok, hds, _⟩ :=
    r0_spec (sampleFrame.filter (fun r => r.ds ≤ 18080)) 1 none
      (by decide) (by decide) (by decide) (by decide)
  refine ⟨pts, hok, by simpa using congrArg List.length hds, ?_⟩
  have hmem : (18078 : ℤ) ∈ pts.map (·.ds) := by
    rw [hds, show maxDs (sampleFrame.filter (fun r => r.ds ≤ 18080)) = 18077
      from by decide]
    decide
  rw [List.mem_map] at hmem
  obtain ⟨p, hp, he⟩ := hmem
  exact ⟨p, hp, by rw [he]; norm_num⟩

/-- C5 (amended): every ForecastPoint generated for a run date carries a
cutoff equal to the greatest observation date at most the run date — the
last date of the truncated frame, equal to the run date exactly when an
observation exists on it — and the forecast days are the horizon * 7
days counted from that cutoff. -/
theorem c5_cutoff_tagging (df : List EpiRow) (runDate : ℤ) (h : ℕ)
    (sm : Option ℚ)
    (htr : ∀ r ∈ df, r.ds ≤ runDate)
    (hne : df ≠ [])
    (hdoy : df.all (fun r => r.doy.isSome) = true)
    (hnd : (df.map (·.ds)).Nodup)
    (hkeys : ∀ j : ℕ, j ∈ List.range (7 * h + 5) →
      dayofyear (maxDs df - 4 + (j : ℤ)) ∈ df.filterMap (·.doy)) :
    ∃ pts, r0_forecast df h sm = .ok pts ∧
      (∀ p ∈ pts, p.cutoff = maxDs df) ∧ maxDs df ≤ runDate ∧
      pts.map (·.ds)
        = (List.range (7 * h)).map (fun (k : ℕ) => maxDs df + 1 + (k : ℤ)) := by
  obtain ⟨pts, hok, hds, hcut⟩ := r0_spec df h sm hne hdoy hnd hkeys
  refine ⟨pts, hok, ?_, maxDs_le hne htr, hds⟩
  intro p hp
  have hmm : p.cutoff ∈ pts.map (·.cutoff) := List.mem_map_of_mem _ hp
  rw [hcut] at hmm
  exact List.eq_of_mem_replicate hmm

set_option maxRecDepth 100000 in
/-- Witness for the amended C5: the sample frame truncated at its own
last observation date. -/
theorem c5_cutoff_tagging_witness :
    ∃ pts, r0_forecast sampleFrame 1 none = .ok pts ∧
      (∀ p ∈ pts, p.cutoff = maxDs sampleFrame) ∧ maxDs sampleFrame ≤ 18077 ∧
      pts.map (·.ds)
        = (List.range (7 * 1)).map (fun (k : ℕ) => maxDs sampleFrame + 1 + (k : ℤ)) :=
  c5_cutoff_tagging sampleFrame 18077 1 none (by decide) (by decide) (by decide)
    (by decide) (by decide)

set_option maxRecDepth 100000 in
/-- Counterexample to C5 as stated: at run date 18080 the produced
points all carry cutoff 18077 — the last observation date — and not the
run date. -/
theorem c5_counterexample :
    ∃ pts, r0_forecast (sampleFrame.filter (fun r => r.ds ≤ 18080)) 1 none
        = .ok pts ∧ pts ≠ [] ∧ ∀ p ∈ pts, p.cutoff ≠ 18080 := by
  obtain ⟨pts, hok, hds, hcut⟩ :=
    r0_spec (sampleFrame.filter (fun r => r.ds ≤ 18080)) 1 none
      (by decide) (by decide) (by decide) (by decide)
  refine ⟨pts, hok, ?_, ?_⟩
  · intro hnil
    rw [hnil] at hds
    simp at hds
  · intro p hp
    have hmm : p.cutoff ∈ pts.map (·.cutoff) := List.mem_map_of_mem _ hp
    rw [hcut] at hmm
    have he := List.eq_of_mem_replicate hmm
    rw [he, show maxDs (sampleFrame.filter (fun r => r.ds ≤ 18080)) = 18077
      from by decide]
    norm_num

/-- Witness for C3 on a constant positive series of length 31, probing
index 15 (a full-window index) through the characterization. -/
theorem c3_R_definition_witness :
    RAt (List.replicate 31 (2 : ℚ)) 15
      = if 15 ≤ 15 ∧ 15 + 16 ≤ (List.replicate 31 (2 : ℚ)).length then
          some (R_claim (List.replicate 31 (2 : ℚ)) 15)
        else if 31 ≤ (List.replicate 31 (2 : ℚ)).length then
          some (R_claim_fill (List.replicate 31 (2 : ℚ)))
        else none :=
  c3_R_definition (List.replicate 31 (2 : ℚ)) (by decide) (by decide) 15
    (by decide)

/-- Seventeen rows whose R column is one everywhere. -/
def c7FrameA : List EpiRow :=
  (List.range 17).map (fun (k : ℕ) =>
    { ds := (100 : ℤ) + k, percent_ill := 2, ibar := some 2, R := some 1,
      doy := some (k + 1) })

/-- The same seventeen rows with a different R on the last fifteen. -/
def c7FrameB : List EpiRow :=
  (List.range 17).map (fun (k : ℕ) =>
    { ds := (100 : ℤ) + k, percent_ill := 2, ibar := some 2,
      R := if k < 2 then some 1 else some 5, doy := some (k + 1) })

/-- Witness for C7: differing R values on the last fifteen rows leave
the day-of-year median table unchanged. -/
theorem c7_leakage_guard_witness :
    avgRTable (maskR15 c7FrameA) none = avgRTable (maskR15 c7FrameB) none :=
  c7_leakage_guard c7FrameA c7FrameB none (by decide) (by decide)
    (by intro i hi
        have hlen : c7FrameA.length = 17 := by decide
        have hi2 : i ≤ 1 := by omega
        interval_cases i <;> decide)
